import Mathlib

/-!
# Concurrent image analysis: a verification development

A shallow embedding of `src/main.go`:

* the result types `Rekognitionresponse`, `ImageResponse`, `LocationsType`;
* `getLabels` and `getImageResults`, the per-image task;
* `processImages`, the fan-out / fan-in engine, as a step function over an
  explicit state (main goroutine, tasks, buffered channel);
* `HandleRequest`, the method router.

Go pointers are `Option`, a Go slice whose nil-ness the code tests is
`Option (List _)`, every other slice is a `List`.  A nil dereference is the
result `none`.  The type `F` stands for Go's `float64`: the program only ever
copies such values, so the development is generic in it.  Console output
(`fmt.Println`) is not modelled.
-/

namespace ImageAnalysis

/-! ## Result types (src/main.go, lines 21-36) -/

/-- The struct `LocationsType`, fields in the order of their declaration. -/
structure LocationsType (F : Type) where
  Left : F
  Top : F
  Height : F
  Width : F
deriving DecidableEq

/-- The struct `ImageResponse`. -/
structure ImageResponse (F : Type) where
  Title : String
  Locations : List (LocationsType F)
deriving DecidableEq

/-- The struct `Rekognitionresponse`. -/
structure Rekognitionresponse (F : Type) where
  Key : String
  Values : List (ImageResponse F)
deriving DecidableEq

/-- The Go zero value of `Rekognitionresponse`, which fills a slice made by
`make([]Rekognitionresponse, n)`. -/
def Rekognitionresponse.zero {F : Type} : Rekognitionresponse F :=
  { Key := "", Values := [] }

/-! ## The label service's types

The types below belong to the AWS SDK, which is a dependency and not part of
the repository.  Only the fields that `getImageResults` reads are kept. -/

/-- Modelled from the spec: the SDK type `rekognition.BoundingBox`, whose
declaration is outside the repository; "four floating-point fractions
(left, top, width, height)", each held through a pointer that may be nil. -/
structure BoundingBox (F : Type) where
  Height : Option F
  Left : Option F
  Top : Option F
  Width : Option F
deriving DecidableEq

/-- Modelled from the spec: the SDK type `rekognition.Instance`, whose
declaration is outside the repository; one localized instance of a label,
holding a pointer to its bounding box. -/
structure Instance (F : Type) where
  BoundingBox : Option (BoundingBox F)
deriving DecidableEq

/-- Modelled from the spec: the SDK type `rekognition.Label`, whose
declaration is outside the repository; "a name (string) plus an ordered
sequence of zero or more BoundingBox instances".  `Name` is a `*string`,
`Instances` a `[]*Instance`: `none` is the nil slice, `some []` a slice that
is present and empty. -/
structure Label (F : Type) where
  Name : Option String
  Instances : Option (List (Option (Instance F)))
deriving DecidableEq

/-- Modelled from the spec: the SDK type `rekognition.DetectLabelsOutput`,
whose declaration is outside the repository; the "structured label set", a
`[]*Label`. -/
structure DetectLabelsOutput (F : Type) where
  Labels : List (Option (Label F))
deriving DecidableEq

/-- Modelled from the spec: the error value of the remote call, whose types
(`error`, `awserr.Error`) are outside the repository; "a finite set of
classified error kinds ... or an unclassified transport error".  A
classified error carries its code. -/
inductive SdkError where
  | classified (code : String) (message : String)
  | unclassified (message : String)
deriving DecidableEq

/-- What one call `svc.DetectLabels(input)` hands back: the pair
`(result, err)` of a `*rekognition.DetectLabelsOutput` and an `error`. -/
abbrev SdkReturn (F : Type) := Option (DetectLabelsOutput F) × Option SdkError

/-- Modelled from the spec: the return of a successful remote call, whose code
is outside the repository: the label set and a nil error. -/
def SdkReturn.success {F : Type} (out : DetectLabelsOutput F) : SdkReturn F :=
  (some out, none)

/-! ## The task (src/main.go, lines 136-233) -/

/-- The function `getLabels` (lines 182-233), given what `svc.DetectLabels`
returned.  The error is inspected for printing only; the function ends in
`return result, nil`. -/
def getLabels {F : Type} (ret : SdkReturn F) : Option (DetectLabelsOutput F) × Option SdkError :=
  match ret with
  | (result, _err) => (result, none)

/-- The literal `LocationsType{Top: *bb.Top, Left: *bb.Left, Width: *bb.Width,
Height: *bb.Height}` of lines 152-157, for one `instance`; `none` when
`instance`, `instance.BoundingBox` or one of the four coordinates is nil. -/
def location {F : Type} (inst : Option (Instance F)) : Option (LocationsType F) :=
  match inst with
  | none => none
  | some i =>
    match i.BoundingBox with
    | none => none
    | some bb =>
      match bb.Top, bb.Left, bb.Width, bb.Height with
      | some t, some l, some w, some h => some { Top := t, Left := l, Width := w, Height := h }
      | _, _, _, _ => none

/-- The inner loop of lines 151-160: `locations` is appended to, one entry per
instance, in order. -/
def locationsLoop {F : Type} :
    List (Option (Instance F)) → List (LocationsType F) → Option (List (LocationsType F))
  | [], locations => some locations
  | inst :: rest, locations =>
    match location inst with
    | none => none
    | some loc => locationsLoop rest (locations ++ [loc])

/-- The outer loop of lines 147-167 over `res.Labels`. -/
def labelsLoop {F : Type} :
    List (Option (Label F)) → List (ImageResponse F) → Option (List (ImageResponse F))
  | [], values => some values
  | label :: rest, values =>
    match label with
    | none => none
    | some l =>
      match l.Instances with
      | none => labelsLoop rest values
      | some instances =>
        match locationsLoop instances [] with
        | none => none
        | some locations =>
          match l.Name with
          | none => none
          | some name => labelsLoop rest (values ++ [{ Title := name, Locations := locations }])

/-- The function `getImageResults` (lines 136-175), given what the remote call
made by its `getLabels(s)` returned.  The value is the message sent on `ch`;
`none` is a nil dereference, after which nothing is sent. -/
def getImageResults {F : Type} (s : String) (ret : SdkReturn F) : Option (Rekognitionresponse F) :=
  match getLabels ret with
  | (res, _err) =>
    match res with
    | none => none
    | some out =>
      match labelsLoop out.Labels [] with
      | none => none
      | some values => some { Key := s, Values := values }

/-! ## The engine (src/main.go, lines 92-133)

`processImages` runs one goroutine per image and collects their messages from
a buffered channel.  Its executions are the interleavings of the steps below;
which step comes next is the scheduler's choice, so a whole execution is a
list of `Action`s.  -/

/-- One scheduling choice. -/
inductive Action where
  /-- The main goroutine runs one iteration of the loop of lines 108-110:
  `go getImageResults(img, ch)`. -/
  | launch
  /-- The goroutine launched for `images[k]` runs `getImageResults` from its
  call of `getLabels` to its send `ch <- &result` (line 171). -/
  | task (k : Nat)
  /-- The main goroutine runs one iteration of the loop of lines 119-122:
  `result := <-ch; results[i] = *result`. -/
  | recv
  /-- The main goroutine runs `close(ch)` (line 126). -/
  | close
  /-- The main goroutine runs `return results` (line 132). -/
  | ret
deriving DecidableEq

/-- The state of one call of `processImages`. -/
structure State (F : Type) where
  /-- Capacity of the channel `ch`. -/
  cap : Nat
  /-- Messages buffered in `ch`, oldest first. -/
  buf : List (Rekognitionresponse F)
  /-- Whether `ch` has been closed. -/
  closed : Bool
  /-- Number of iterations of the launch loop done so far: the goroutines for
  `images[0]`, ..., `images[launched - 1]` exist. -/
  launched : Nat
  /-- History of the channel: every send made so far, oldest first, as the
  index of the sending task and its message. -/
  sends : List (Nat × Rekognitionresponse F)
  /-- The slice `results`. -/
  results : List (Rekognitionresponse F)
  /-- The counter `i` of the collecting loop. -/
  collected : Nat
  /-- Whether `processImages` has returned `results`. -/
  returned : Bool
  /-- Whether a goroutine has panicked, which ends the process. -/
  panicked : Bool
deriving DecidableEq

/-- The tasks that have sent, in the order of their sends: the completion
order. -/
def State.order {F : Type} (s : State F) : List Nat := s.sends.map Prod.fst

/-- The messages sent on the channel, in the order of their sends. -/
def State.delivered {F : Type} (s : State F) : List (Rekognitionresponse F) :=
  s.sends.map Prod.snd

/-- The state after `ch := make(chan *Rekognitionresponse, len(images))`
(line 103).  The slice of line 115, `make([]Rekognitionresponse, len(images))`,
holds zero values; as its allocation synchronises with nothing it is placed
here. -/
def init {F : Type} (images : List String) : State F :=
  { cap := images.length
    buf := []
    closed := false
    launched := 0
    sends := []
    results := List.replicate images.length Rekognitionresponse.zero
    collected := 0
    returned := false
    panicked := false }

/-- One step of `processImages images`.  `svc k img` is what the remote call
made by task `k`, for the image `img`, returns.  The value `none` means that
the action cannot be taken in this state: it is not the main goroutine's next
statement, the task does not exist or has ended, or the action blocks (a send
on a full channel, a receive on an empty one).  The main goroutine's position
is read off the state: it launches while `launched < len(images)`, then
receives while `collected < len(results)`, then closes, then returns.  A nil
dereference in a task and a send on a closed channel are panics, after which
no step is taken. -/
def step {F : Type} (images : List String) (svc : Nat → String → SdkReturn F)
    (s : State F) : Action → Option (State F)
  | Action.launch =>
    if s.panicked = false ∧ s.launched < images.length then
      some { s with launched := s.launched + 1 }
    else none
  | Action.task k =>
    if s.panicked = false ∧ k < s.launched ∧ k ∉ s.order then
      match images[k]? with
      | none => none
      | some img =>
        match getImageResults img (svc k img) with
        | none => some { s with panicked := true }
        | some result =>
          if s.closed = true then some { s with panicked := true }
          else if s.buf.length < s.cap then
            some { s with buf := s.buf ++ [result], sends := s.sends ++ [(k, result)] }
          else none
    else none
  | Action.recv =>
    if s.panicked = false ∧ s.launched = images.length ∧ s.collected < s.results.length
        ∧ s.closed = false then
      match s.buf with
      | [] => none
      | result :: rest =>
        some { s with buf := rest, results := s.results.set s.collected result,
                      collected := s.collected + 1 }
    else none
  | Action.close =>
    if s.panicked = false ∧ s.launched = images.length ∧ s.collected = s.results.length
        ∧ s.closed = false then
      some { s with closed := true }
    else none
  | Action.ret =>
    if s.panicked = false ∧ s.closed = true ∧ s.returned = false then
      some { s with returned := true }
    else none

/-- The execution that takes the given actions in turn; `none` when one of
them cannot be taken. -/
def run {F : Type} (images : List String) (svc : Nat → String → SdkReturn F) :
    State F → List Action → Option (State F)
  | s, [] => some s
  | s, a :: rest =>
    match step images svc s a with
    | none => none
    | some t => run images svc t rest

/-- The function `processImages` under the schedule `sched`: the slice it
returns, when the execution reaches `return results`. -/
def processImages {F : Type} (images : List String) (svc : Nat → String → SdkReturn F)
    (sched : List Action) : Option (List (Rekognitionresponse F)) :=
  match run images svc (init images) sched with
  | none => none
  | some s => if s.returned = true then some s.results else none

/-- The schedule in which all tasks are launched, then complete in the given
order, and the main goroutine then collects, closes and returns. -/
def schedule (n : Nat) (order : List Nat) : List Action :=
  List.replicate n Action.launch ++ order.map Action.task
    ++ List.replicate n Action.recv ++ [Action.close, Action.ret]

/-! ## The request handler (src/main.go, lines 43-89) -/

/-- The fields of `events.APIGatewayProxyRequest` that `HandleRequest` reads. -/
structure APIGatewayProxyRequest where
  HTTPMethod : String
  Body : String
deriving DecidableEq

/-- The fields of `events.APIGatewayProxyResponse` that `HandleRequest` sets;
a nil map of headers is the empty list. -/
structure APIGatewayProxyResponse where
  StatusCode : Int
  Headers : List (String × String)
  Body : String
deriving DecidableEq

/-- The map literal of lines 47-52 and 76-81. -/
def corsHeaders : List (String × String) :=
  [ ("Access-Control-Allow-Origin", "*"),
    ("Access-Control-Allow-Headers", "Content-Type,X-Amz-Date,Authorization"),
    ("Access-Control-Allow-Methods", "DELETE,GET,OPTIONS,POST,PUT"),
    ("Cache-Control", "private, no-cache, no-store, max-age=0, must-revalidate") ]

/-- What one call of `HandleRequest` does: its two results, and the argument of
each call of `processImages` it made. -/
structure Handled where
  response : APIGatewayProxyResponse
  err : Option String
  engineCalls : List (List String)
deriving DecidableEq

/-- The function `HandleRequest`.  The library calls are parameters:
`unmarshal body` is the value of `arr` after `json.Unmarshal` (whose error is
dropped), `marshal` is `json.Marshal` (`none` when it fails) and `engine arr`
is the slice that the call `processImages(arr)` returns. -/
def HandleRequest {F : Type} (unmarshal : String → List String)
    (engine : List String → List (Rekognitionresponse F))
    (marshal : List (Rekognitionresponse F) → Option String)
    (request : APIGatewayProxyRequest) : Handled :=
  let ApiResponse : APIGatewayProxyResponse := { StatusCode := 0, Headers := [], Body := "" }
  if request.HTTPMethod = "OPTIONS" then
    { response := { StatusCode := 200, Headers := corsHeaders, Body := "" }
      err := none
      engineCalls := [] }
  else if request.HTTPMethod = "POST" then
    let arr := unmarshal request.Body
    let imageArr := engine arr
    match marshal imageArr with
    | none => { response := ApiResponse, err := none, engineCalls := [arr] }
    | some jsonString =>
      { response := { Body := jsonString, StatusCode := 200, Headers := corsHeaders }
        err := none
        engineCalls := [arr] }
  else
    { response := { Body := "invalid request", StatusCode := 400, Headers := [] }
      err := none
      engineCalls := [] }

/-! ## Vocabulary of the properties -/

/-- The number of localized instances of a label: the length of its instance
list, zero when the list is nil. -/
def numInstances {F : Type} (l : Label F) : Nat :=
  match l.Instances with
  | none => 0
  | some instances => instances.length

/-- The labels that have at least one localized instance, in the order of the
response. -/
def instanceBearing {F : Type} (labels : List (Option (Label F))) : List (Label F) :=
  (labels.filterMap id).filter (fun l => decide (0 < numInstances l))

/-- The labels whose instance list is present (not nil), be it empty, in the
order of the response. -/
def withInstanceList {F : Type} (labels : List (Option (Label F))) : List (Label F) :=
  (labels.filterMap id).filter (fun l => l.Instances.isSome)

/-- The location `loc` is the box of the instance `inst`, field for field. -/
def BoxCopied {F : Type} (inst : Option (Instance F)) (loc : LocationsType F) : Prop :=
  ∃ i bb, inst = some i ∧ i.BoundingBox = some bb ∧ bb.Left = some loc.Left
    ∧ bb.Top = some loc.Top ∧ bb.Width = some loc.Width ∧ bb.Height = some loc.Height

/-- The entry `v` is the one of the label `l`: its title is the label's name and
its locations are the boxes of the label's instances, in order. -/
def EntryOf {F : Type} (l : Label F) (v : ImageResponse F) : Prop :=
  l.Name = some v.Title ∧
    ∃ instances, l.Instances = some instances ∧ List.Forall₂ BoxCopied instances v.Locations

/-- An instance all of whose pointers are set: the instance itself, its
bounding box and the four coordinates. -/
def completeInstance {F : Type} (inst : Option (Instance F)) : Bool :=
  match inst with
  | none => false
  | some i =>
    match i.BoundingBox with
    | none => false
    | some bb => bb.Top.isSome && bb.Left.isSome && bb.Width.isSome && bb.Height.isSome

/-- A label record that `getImageResults` can read: the record is present and,
when its instance list is present, so are its name and every pointer of every
instance. -/
def completeLabel {F : Type} (label : Option (Label F)) : Bool :=
  match label with
  | none => false
  | some l =>
    match l.Instances with
    | none => true
    | some instances => instances.all completeInstance && l.Name.isSome

/-- An output that `getImageResults` can read: it is present and all its label
records are complete. -/
def completeOutput {F : Type} (res : Option (DetectLabelsOutput F)) : Bool :=
  match res with
  | none => false
  | some out => out.Labels.all completeLabel

/-- The task `k` of the batch is still to send: it has been launched and is not
in the completion order. -/
def Pending {F : Type} (s : State F) (k : Nat) : Prop :=
  k < s.launched ∧ k ∉ s.order

/-- The message that task `k` of the batch builds, when it builds one. -/
def taskMessage {F : Type} (images : List String) (svc : Nat → String → SdkReturn F)
    (k : Nat) : Option (Rekognitionresponse F) :=
  match images[k]? with
  | none => none
  | some img => getImageResults img (svc k img)

/-- The facts that hold in every state of an execution of `processImages`. -/
structure Inv {F : Type} (images : List String) (svc : Nat → String → SdkReturn F)
    (s : State F) : Prop where
  cap_eq : s.cap = images.length
  launched_le : s.launched ≤ images.length
  results_len : s.results.length = images.length
  order_nodup : s.order.Nodup
  order_lt : ∀ k ∈ s.order, k < s.launched
  sends_ok : ∀ p ∈ s.sends, taskMessage images svc p.1 = some p.2
  collected_le : s.collected ≤ s.sends.length
  buf_eq : s.buf = s.delivered.drop s.collected
  results_eq : s.results = s.delivered.take s.collected
    ++ List.replicate (images.length - s.collected) Rekognitionresponse.zero
  collecting : 0 < s.collected → s.launched = images.length
  closed_imp : s.closed = true → s.launched = images.length ∧ s.collected = images.length
  returned_imp : s.returned = true → s.closed = true

/-! ## The scenario of the specification (§8) -/

/-- The instance box of the scenario: Left 0.1, Top 0.2, Width 0.3, Height 0.4. -/
def dogBox : BoundingBox ℚ :=
  { Left := some 0.1, Top := some 0.2, Width := some 0.3, Height := some 0.4 }

/-- The response for "a.jpg" in the scenario: one label "Dog" with one instance
box Left 0.1, Top 0.2, Width 0.3, Height 0.4. -/
def dogOutput : DetectLabelsOutput ℚ :=
  { Labels := [some { Name := some "Dog", Instances := some [some { BoundingBox := some dogBox }] }] }

/-- The label service of the scenario: labels for "a.jpg", and for every other
image a throttling error that comes with an output holding no label. -/
def scenarioService : Nat → String → SdkReturn ℚ := fun _ img =>
  if img = "a.jpg" then SdkReturn.success dogOutput
  else (some { Labels := [] }, some (SdkError.classified "ThrottlingException" "Rate exceeded"))

/-- A label service whose response for "b.jpg" holds a label with an instance
list and no name; every other image gets the response of the scenario. -/
def namelessService : Nat → String → SdkReturn ℚ := fun _ img =>
  if img = "b.jpg" then
    SdkReturn.success { Labels := [some { Name := none, Instances := some [] }] }
  else SdkReturn.success dogOutput

/-- A label service that finds no label in any image. -/
def quietService : Nat → String → SdkReturn ℚ := fun _ _ =>
  SdkReturn.success { Labels := [] }

/-- A response with three labels: "Sky" without an instance list, "Sea" with an
instance list that is present and empty, "Dog" with one instance. -/
def mixedOutput : DetectLabelsOutput ℚ :=
  { Labels := [some { Name := some "Sky", Instances := none },
               some { Name := some "Sea", Instances := some [] },
               some { Name := some "Dog", Instances := some [some { BoundingBox := some dogBox }] }] }

/-! ## Properties of the task -/

theorem locationsLoop_spec {F : Type} (instances : List (Option (Instance F))) :
    ∀ (acc out : List (LocationsType F)), locationsLoop instances acc = some out →
      ∃ new, out = acc ++ new ∧ List.Forall₂ BoxCopied instances new := by
  induction instances with
  | nil =>
    intro acc out h
    simp only [locationsLoop, Option.some.injEq] at h
    exact ⟨[], by simp [h], List.Forall₂.nil⟩
  | cons inst rest ih =>
    intro acc out h
    simp only [locationsLoop] at h
    cases hloc : location inst with
    | none => simp [hloc] at h
    | some loc =>
      simp only [hloc] at h
      obtain ⟨new, hnew, hall⟩ := ih _ _ h
      refine ⟨loc :: new, by simp [hnew], List.Forall₂.cons ?_ hall⟩
      unfold location at hloc
      split at hloc
      · simp at hloc
      · rename_i i
        split at hloc
        · simp at hloc
        · rename_i bb hbb
          split at hloc
          · rename_i t l w h' ht hl hw hh
            simp only [Option.some.injEq] at hloc
            subst hloc
            exact ⟨i, bb, rfl, hbb, hl, ht, hw, hh⟩
          · simp at hloc

theorem labelsLoop_spec {F : Type} (labels : List (Option (Label F))) :
    ∀ (acc out : List (ImageResponse F)), labelsLoop labels acc = some out →
      ∃ new, out = acc ++ new ∧ List.Forall₂ EntryOf (withInstanceList labels) new := by
  induction labels with
  | nil =>
    intro acc out h
    simp only [labelsLoop, Option.some.injEq] at h
    exact ⟨[], by simp [h], by simp [withInstanceList]⟩
  | cons label rest ih =>
    intro acc out h
    cases label with
    | none => simp [labelsLoop] at h
    | some l =>
      simp only [labelsLoop] at h
      cases hinst : l.Instances with
      | none =>
        simp only [hinst] at h
        obtain ⟨new, hnew, hall⟩ := ih _ _ h
        refine ⟨new, hnew, ?_⟩
        simpa [withInstanceList, List.filter_cons, hinst] using hall
      | some instances =>
        simp only [hinst] at h
        cases hlocs : locationsLoop instances [] with
        | none => simp [hlocs] at h
        | some locations =>
          simp only [hlocs] at h
          cases hname : l.Name with
          | none => simp [hname] at h
          | some name =>
            simp only [hname] at h
            obtain ⟨new, hnew, hall⟩ := ih _ _ h
            obtain ⟨locs, hlocs', hboxes⟩ := locationsLoop_spec instances _ _ hlocs
            simp only [List.nil_append] at hlocs'
            subst hlocs'
            refine ⟨{ Title := name, Locations := locations } :: new, by simp [hnew], ?_⟩
            have hentry : EntryOf l { Title := name, Locations := locations } :=
              ⟨hname, instances, hinst, hboxes⟩
            simpa [withInstanceList, List.filter_cons, hinst] using
              List.Forall₂.cons hentry hall

theorem getImageResults_spec {F : Type} (s : String) (out : DetectLabelsOutput F)
    (err : Option SdkError) (r : Rekognitionresponse F)
    (h : getImageResults s (some out, err) = some r) :
    r.Key = s ∧ List.Forall₂ EntryOf (withInstanceList out.Labels) r.Values := by
  simp only [getImageResults, getLabels] at h
  cases hl : labelsLoop out.Labels [] with
  | none => simp [hl] at h
  | some values =>
    simp only [hl, Option.some.injEq] at h
    subst h
    obtain ⟨new, hnew, hall⟩ := labelsLoop_spec _ _ _ hl
    simp only [List.nil_append] at hnew
    subst hnew
    exact ⟨rfl, hall⟩

theorem location_isSome {F : Type} (inst : Option (Instance F)) :
    (location inst).isSome = completeInstance inst := by
  unfold location completeInstance
  cases inst with
  | none => rfl
  | some i =>
    cases i with
    | mk bbox =>
      cases bbox with
      | none => rfl
      | some bb =>
        cases bb with
        | mk h l t w => cases h <;> cases l <;> cases t <;> cases w <;> rfl

theorem locationsLoop_isSome {F : Type} (instances : List (Option (Instance F))) :
    ∀ acc : List (LocationsType F),
      (locationsLoop instances acc).isSome = instances.all completeInstance := by
  induction instances with
  | nil => intro acc; rfl
  | cons inst rest ih =>
    intro acc
    have hl := location_isSome inst
    simp only [locationsLoop, List.all_cons]
    cases hloc : location inst with
    | none =>
      rw [hloc] at hl
      simp [← hl]
    | some loc =>
      rw [hloc] at hl
      simp [← hl, ih]

theorem labelsLoop_isSome {F : Type} (labels : List (Option (Label F))) :
    ∀ acc : List (ImageResponse F),
      (labelsLoop labels acc).isSome = labels.all completeLabel := by
  induction labels with
  | nil => intro acc; rfl
  | cons label rest ih =>
    intro acc
    cases label with
    | none => simp [labelsLoop, completeLabel]
    | some l =>
      simp only [labelsLoop, List.all_cons, completeLabel]
      cases hinst : l.Instances with
      | none => simp [ih]
      | some instances =>
        have hlocs := locationsLoop_isSome instances []
        cases hl : locationsLoop instances [] with
        | none =>
          rw [hl] at hlocs
          simp [← hlocs, hl]
        | some locations =>
          rw [hl] at hlocs
          cases hname : l.Name with
          | none => simp [hl]
          | some name => simp [← hlocs, ih, hl]

theorem getImageResults_isSome {F : Type} (s : String) (ret : SdkReturn F) :
    (getImageResults s ret).isSome = completeOutput ret.1 := by
  obtain ⟨res, err⟩ := ret
  cases res with
  | none => rfl
  | some out =>
    have h := labelsLoop_isSome out.Labels []
    simp only [getImageResults, getLabels, completeOutput]
    cases hl : labelsLoop out.Labels [] with
    | none => rw [hl] at h; simp [← h]
    | some values => rw [hl] at h; simp [← h]

/-! ## Properties of the engine -/

theorem set_take_replicate {α : Type} (d : List α) (c n : Nat) (z r : α) (rest : List α)
    (h : d.drop c = r :: rest) (hn : c < n) :
    (d.take c ++ List.replicate (n - c) z).set c r
        = d.take (c + 1) ++ List.replicate (n - (c + 1)) z
      ∧ rest = d.drop (c + 1) ∧ c < d.length := by
  have hc : c < d.length := by
    by_contra hcon
    rw [List.drop_eq_nil_of_le (by omega)] at h
    cases h
  rw [List.drop_eq_getElem_cons hc] at h
  injection h with h1 h2
  have hlen : (d.take c).length = c := by simp; omega
  have hrep : List.replicate (n - c) z = z :: List.replicate (n - (c + 1)) z := by
    have : n - c = (n - (c + 1)) + 1 := by omega
    rw [this, List.replicate_succ]
  refine ⟨?_, h2.symm, hc⟩
  rw [List.set_append_right _ _ (by omega), hlen, Nat.sub_self, hrep, List.set_cons_zero,
    List.take_succ, List.getElem?_eq_getElem hc, ← h1, Option.toList_some,
    List.append_assoc, List.singleton_append]

theorem nodup_length_le (l : List Nat) (n : Nat) (hd : l.Nodup) (hlt : ∀ k ∈ l, k < n) :
    l.length ≤ n := by
  have hsub : l ⊆ List.range n := fun k hk => List.mem_range.2 (hlt k hk)
  simpa using (hd.subperm hsub).length_le

theorem nodup_length_lt (l : List Nat) (n k : Nat) (hd : l.Nodup) (hlt : ∀ j ∈ l, j < n)
    (hk : k < n) (hnot : k ∉ l) : l.length < n := by
  have := nodup_length_le (k :: l) n (List.nodup_cons.2 ⟨hnot, hd⟩) (by
    intro j hj
    rcases List.mem_cons.1 hj with rfl | hj
    · exact hk
    · exact hlt j hj)
  simpa using this

theorem nodup_perm_range (l : List Nat) (n : Nat) (hd : l.Nodup) (hlt : ∀ k ∈ l, k < n)
    (hlen : n ≤ l.length) : l.Perm (List.range n) := by
  have hsub : l ⊆ List.range n := fun k hk => List.mem_range.2 (hlt k hk)
  exact (hd.subperm hsub).perm_of_length_le (by simpa using hlen)

theorem exists_not_mem (l : List Nat) (n : Nat) (hlen : l.length < n) : ∃ k, k < n ∧ k ∉ l := by
  by_contra hcon
  push_neg at hcon
  have hsub : List.range n ⊆ l := fun k hk => hcon k (List.mem_range.1 hk)
  have := ((List.nodup_range n).subperm hsub).length_le
  simp at this
  omega

theorem inv_init {F : Type} (images : List String) (svc : Nat → String → SdkReturn F) :
    Inv images svc (init images : State F) := by
  constructor <;> simp [init, State.order, State.delivered]

theorem inv_panicked {F : Type} {images : List String} {svc : Nat → String → SdkReturn F}
    {s : State F} (hinv : Inv images svc s) : Inv images svc { s with panicked := true } :=
  ⟨hinv.cap_eq, hinv.launched_le, hinv.results_len, hinv.order_nodup, hinv.order_lt,
    hinv.sends_ok, hinv.collected_le, hinv.buf_eq, hinv.results_eq, hinv.collecting,
    hinv.closed_imp, hinv.returned_imp⟩

theorem sends_length_le {F : Type} {images : List String} {svc : Nat → String → SdkReturn F}
    {s : State F} (hinv : Inv images svc s) : s.sends.length ≤ s.launched := by
  have := nodup_length_le s.order s.launched hinv.order_nodup hinv.order_lt
  simpa [State.order] using this

theorem pending_sends_lt {F : Type} {images : List String} {svc : Nat → String → SdkReturn F}
    {s : State F} {k : Nat} (hinv : Inv images svc s) (hp : Pending s k) :
    s.sends.length < images.length := by
  have h1 := nodup_length_lt s.order s.launched k hinv.order_nodup hinv.order_lt hp.1 hp.2
  have h2 := hinv.launched_le
  simp only [State.order, List.length_map] at h1
  omega

theorem pending_open {F : Type} {images : List String} {svc : Nat → String → SdkReturn F}
    {s : State F} {k : Nat} (hinv : Inv images svc s) (hp : Pending s k) :
    s.closed = false := by
  cases hc : s.closed with
  | false => rfl
  | true =>
    have h0 := hinv.closed_imp hc
    have h1 := pending_sends_lt hinv hp
    have h2 := hinv.collected_le
    omega

theorem pending_room {F : Type} {images : List String} {svc : Nat → String → SdkReturn F}
    {s : State F} {k : Nat} (hinv : Inv images svc s) (hp : Pending s k) :
    s.buf.length < s.cap := by
  have h1 := pending_sends_lt hinv hp
  rw [hinv.buf_eq, hinv.cap_eq]
  simp only [State.delivered, List.length_drop, List.length_map]
  omega

theorem step_inv {F : Type} {images : List String} {svc : Nat → String → SdkReturn F}
    {s t : State F} (hinv : Inv images svc s) (a : Action)
    (h : step images svc s a = some t) : Inv images svc t := by
  cases a with
  | launch =>
    simp only [step] at h
    split at h
    · rename_i hg
      simp only [Option.some.injEq] at h
      subst h
      have hcol : s.collected = 0 := by
        by_contra hne
        have := hinv.collecting (Nat.pos_of_ne_zero hne)
        omega
      have hcl : s.closed = false := by
        cases hc : s.closed with
        | false => rfl
        | true =>
          have := (hinv.closed_imp hc).1
          omega
      exact ⟨hinv.cap_eq, hg.2, hinv.results_len, hinv.order_nodup,
        fun k hk => Nat.lt_succ_of_lt (hinv.order_lt k hk), hinv.sends_ok, hinv.collected_le,
        hinv.buf_eq, hinv.results_eq, fun hpos => absurd hcol (Nat.pos_iff_ne_zero.1 hpos),
        fun hc => absurd hc (by simp [hcl]), hinv.returned_imp⟩
    · simp at h
  | task k =>
    simp only [step] at h
    split at h
    · rename_i hg
      split at h
      · simp at h
      · rename_i img himg
        split at h
        · simp only [Option.some.injEq] at h
          subst h
          exact inv_panicked hinv
        · rename_i r hr
          split at h
          · simp only [Option.some.injEq] at h
            subst h
            exact inv_panicked hinv
          · split at h
            · simp only [Option.some.injEq] at h
              subst h
              have hcl := hinv.collected_le
              have hdl : s.collected ≤ s.delivered.length := by
                simpa [State.delivered] using hcl
              refine ⟨hinv.cap_eq, hinv.launched_le, hinv.results_len, ?_, ?_, ?_, ?_, ?_, ?_,
                hinv.collecting, hinv.closed_imp, hinv.returned_imp⟩
              · have hnd := hinv.order_nodup
                have hk : k ∉ s.order := hg.2.2
                simp only [State.order, List.map_append, List.map_cons, List.map_nil] at hnd hk ⊢
                rw [List.nodup_append]
                refine ⟨hnd, List.nodup_singleton k, ?_⟩
                intro x hx hx'
                rw [List.mem_singleton] at hx'
                subst hx'
                exact hk hx
              · intro j hj
                simp only [State.order, List.map_append, List.map_cons, List.map_nil,
                  List.mem_append, List.mem_singleton] at hj
                rcases hj with hj | rfl
                · exact hinv.order_lt j hj
                · exact hg.2.1
              · intro p hp
                simp only [List.mem_append, List.mem_singleton] at hp
                rcases hp with hp | rfl
                · exact hinv.sends_ok p hp
                · simp only [taskMessage, himg, hr]
              · simp only [List.length_append, List.length_singleton]
                omega
              · show s.buf ++ [r] = List.drop s.collected (List.map Prod.snd (s.sends ++ [(k, r)]))
                have hd := @List.drop_append_of_le_length _ s.delivered (List.map Prod.snd [(k, r)]) _ hdl
                simp only [State.delivered] at hd
                rw [List.map_append, hd, hinv.buf_eq]
                rfl
              · show s.results = List.take s.collected (List.map Prod.snd (s.sends ++ [(k, r)]))
                    ++ List.replicate (images.length - s.collected) Rekognitionresponse.zero
                have hd := @List.take_append_of_le_length _ s.delivered (List.map Prod.snd [(k, r)]) _ hdl
                simp only [State.delivered] at hd
                rw [List.map_append, hd]
                exact hinv.results_eq
            · simp at h
    · simp at h
  | recv =>
    simp only [step] at h
    split at h
    · rename_i hg
      split at h
      · simp at h
      · rename_i r rest hbuf
        simp only [Option.some.injEq] at h
        subst h
        have hlt : s.collected < images.length := by
          have := hg.2.2.1
          rw [hinv.results_len] at this
          exact this
        have hdrop : s.delivered.drop s.collected = r :: rest := by
          rw [← hinv.buf_eq]
          exact hbuf
        obtain ⟨hset, hrest, hclt⟩ :=
          set_take_replicate s.delivered s.collected images.length Rekognitionresponse.zero r
            rest hdrop hlt
        refine ⟨hinv.cap_eq, hinv.launched_le, ?_, hinv.order_nodup, hinv.order_lt,
          hinv.sends_ok, ?_, hrest, ?_, fun _ => hg.2.1, ?_, hinv.returned_imp⟩
        · simp only [List.length_set]
          exact hinv.results_len
        · have : s.collected < s.sends.length := by
            simpa [State.delivered] using hclt
          exact this
        · show s.results.set s.collected r = _
          rw [hinv.results_eq]
          exact hset
        · intro hc
          exact absurd hc (by simp [hg.2.2.2])
    · simp at h
  | close =>
    simp only [step] at h
    split at h
    · rename_i hg
      simp only [Option.some.injEq] at h
      subst h
      exact ⟨hinv.cap_eq, hinv.launched_le, hinv.results_len, hinv.order_nodup, hinv.order_lt,
        hinv.sends_ok, hinv.collected_le, hinv.buf_eq, hinv.results_eq, hinv.collecting,
        fun _ => ⟨hg.2.1, hg.2.2.1.trans hinv.results_len⟩, fun _ => rfl⟩
    · simp at h
  | ret =>
    simp only [step] at h
    split at h
    · rename_i hg
      simp only [Option.some.injEq] at h
      subst h
      exact ⟨hinv.cap_eq, hinv.launched_le, hinv.results_len, hinv.order_nodup, hinv.order_lt,
        hinv.sends_ok, hinv.collected_le, hinv.buf_eq, hinv.results_eq, hinv.collecting,
        hinv.closed_imp, fun _ => hg.2.1⟩
    · simp at h

theorem run_inv {F : Type} {images : List String} {svc : Nat → String → SdkReturn F}
    (sched : List Action) : ∀ (s t : State F), Inv images svc s →
      run images svc s sched = some t → Inv images svc t := by
  induction sched with
  | nil =>
    intro s t hinv h
    simp only [run, Option.some.injEq] at h
    exact h ▸ hinv
  | cons a rest ih =>
    intro s t hinv h
    simp only [run] at h
    cases hs : step images svc s a with
    | none => simp [hs] at h
    | some m =>
      simp only [hs] at h
      exact ih m t (step_inv hinv a hs) h

theorem run_append {F : Type} {images : List String} {svc : Nat → String → SdkReturn F}
    (xs ys : List Action) : ∀ s : State F,
      run images svc s (xs ++ ys) = (run images svc s xs).bind (fun m => run images svc m ys) := by
  induction xs with
  | nil => intro s; rfl
  | cons a rest ih =>
    intro s
    simp only [List.cons_append, run]
    cases step images svc s a with
    | none => rfl
    | some m => exact ih m

theorem reachable_inv {F : Type} {images : List String} {svc : Nat → String → SdkReturn F}
    {sched : List Action} {s : State F} (h : run images svc (init images) sched = some s) :
    Inv images svc s :=
  run_inv sched _ _ (inv_init images svc) h

theorem getImageResults_key {F : Type} (img : String) (ret : SdkReturn F)
    (r : Rekognitionresponse F) (h : getImageResults img ret = some r) : r.Key = img := by
  obtain ⟨res, err⟩ := ret
  cases res with
  | none => simp [getImageResults, getLabels] at h
  | some out => exact (getImageResults_spec img out err r h).1

theorem taskMessage_key {F : Type} {images : List String} {svc : Nat → String → SdkReturn F}
    {k : Nat} {r : Rekognitionresponse F} (h : taskMessage images svc k = some r) :
    r.Key = images.getD k "" := by
  unfold taskMessage at h
  split at h
  · simp at h
  · rename_i img himg
    rw [getImageResults_key img _ r h, List.getD_eq_getElem?_getD, himg]
    rfl

theorem task_send {F : Type} {images : List String} {svc : Nat → String → SdkReturn F}
    {s : State F} {k : Nat} {r : Rekognitionresponse F} (hinv : Inv images svc s)
    (hlive : s.panicked = false) (hp : Pending s k) (hr : taskMessage images svc k = some r) :
    step images svc s (Action.task k)
      = some { s with buf := s.buf ++ [r], sends := s.sends ++ [(k, r)] } := by
  have hopen := pending_open hinv hp
  have hroom := pending_room hinv hp
  unfold taskMessage at hr
  split at hr
  · simp at hr
  · rename_i img himg
    simp only [step, hlive, hp.1, hp.2, not_false_eq_true, and_self, if_true, himg, hr, hopen,
      hroom, Bool.false_eq_true, if_false]

theorem task_enabled {F : Type} {images : List String} {svc : Nat → String → SdkReturn F}
    {s : State F} {k : Nat} (hinv : Inv images svc s)
    (hlive : s.panicked = false) (hp : Pending s k) :
    ∃ t, step images svc s (Action.task k) = some t := by
  cases hr : taskMessage images svc k with
  | some r => exact ⟨_, task_send hinv hlive hp hr⟩
  | none =>
    have hk : k < images.length := Nat.lt_of_lt_of_le hp.1 hinv.launched_le
    have himg : images[k]? = some images[k] := List.getElem?_eq_getElem hk
    unfold taskMessage at hr
    simp only [himg] at hr
    exact ⟨{ s with panicked := true }, by
      simp only [step, hlive, hp.1, hp.2, not_false_eq_true, and_self, if_true, himg, hr]⟩

theorem closed_facts {F : Type} {images : List String} {svc : Nat → String → SdkReturn F}
    {s : State F} (hinv : Inv images svc s) (hc : s.closed = true) :
    s.sends.length = images.length ∧ s.collected = images.length
      ∧ s.order.Perm (List.range images.length) ∧ s.results = s.delivered ∧ s.buf = [] := by
  obtain ⟨hl, hcol⟩ := hinv.closed_imp hc
  have h1 := sends_length_le hinv
  have h2 := hinv.collected_le
  have hlen : s.sends.length = images.length := by omega
  have hperm : s.order.Perm (List.range images.length) := by
    apply nodup_perm_range _ _ hinv.order_nodup
    · intro k hk
      exact hl ▸ hinv.order_lt k hk
    · simp [State.order, hlen]
  have hdl : s.delivered.length = images.length := by simp [State.delivered, hlen]
  refine ⟨hlen, hcol, hperm, ?_, ?_⟩
  · rw [hinv.results_eq, hcol, ← hdl]
    simp
  · rw [hinv.buf_eq, hcol, ← hdl]
    simp

theorem delivered_eq_messages {F : Type} {images : List String}
    {svc : Nat → String → SdkReturn F} {s : State F} (hinv : Inv images svc s) :
    s.delivered.map some = s.order.map (taskMessage images svc) := by
  simp only [State.delivered, State.order, List.map_map]
  apply List.map_congr_left
  intro p hp
  exact (hinv.sends_ok p hp).symm

theorem delivered_keys {F : Type} {images : List String}
    {svc : Nat → String → SdkReturn F} {s : State F} (hinv : Inv images svc s) :
    s.delivered.map (fun r => r.Key) = s.order.map (fun k => images.getD k "") := by
  simp only [State.delivered, State.order, List.map_map]
  apply List.map_congr_left
  intro p hp
  exact taskMessage_key (hinv.sends_ok p hp)

theorem map_getD_range (images : List String) :
    (List.range images.length).map (fun k => images.getD k "") = images := by
  apply List.ext_getElem
  · simp
  · intro n h1 h2
    simp [List.getD_eq_getElem?_getD, List.getElem?_eq_getElem h2]

theorem progress {F : Type} {images : List String} {svc : Nat → String → SdkReturn F}
    {s : State F} (hinv : Inv images svc s) (hlive : s.panicked = false)
    (hret : s.returned = false) : ∃ a t, step images svc s a = some t := by
  by_cases hl : s.launched < images.length
  · exact ⟨Action.launch, { s with launched := s.launched + 1 }, by simp [step, hlive, hl]⟩
  · have hle := hinv.launched_le
    have hN : s.launched = images.length := by omega
    cases hc : s.closed with
    | true =>
      exact ⟨Action.ret, { s with returned := true }, by simp [step, hlive, hc, hret]⟩
    | false =>
      by_cases hcol : s.collected < s.results.length
      · cases hbuf : s.buf with
        | cons r rest =>
          refine ⟨Action.recv,
            { s with buf := rest, results := s.results.set s.collected r,
                     collected := s.collected + 1 }, ?_⟩
          simp only [step]
          rw [if_pos ⟨hlive, hN, hcol, hc⟩, hbuf]
        | nil =>
          have hb := hinv.buf_eq
          rw [hbuf] at hb
          have hlen : s.delivered.length ≤ s.collected := List.drop_eq_nil_iff.1 hb.symm
          have hrl := hinv.results_len
          have hlt : s.order.length < images.length := by
            simp only [State.delivered, List.length_map] at hlen
            simp only [State.order, List.length_map]
            omega
          obtain ⟨k, hk, hnot⟩ := exists_not_mem s.order images.length hlt
          have hpk : Pending s k := ⟨hN ▸ hk, hnot⟩
          obtain ⟨t, ht⟩ := task_enabled hinv hlive hpk
          exact ⟨Action.task k, t, ht⟩
      · have h1 := sends_length_le hinv
        have h2 := hinv.collected_le
        have hrl := hinv.results_len
        have hcol' : s.collected = s.results.length := by omega
        exact ⟨Action.close, { s with closed := true }, by
          simp [step, hlive, hN, hcol', hc]⟩

/-- The number of steps taken so far, read off the state. -/
theorem run_length {F : Type} {images : List String} {svc : Nat → String → SdkReturn F}
    (sched : List Action) : ∀ (s t : State F), run images svc s sched = some t →
      t.launched + t.sends.length + t.collected + t.closed.toNat + t.returned.toNat
          + t.panicked.toNat
        = s.launched + s.sends.length + s.collected + s.closed.toNat + s.returned.toNat
          + s.panicked.toNat + sched.length := by
  induction sched with
  | nil =>
    intro s t h
    simp only [run, Option.some.injEq] at h
    subst h
    rfl
  | cons a rest ih =>
    intro s t h
    simp only [run] at h
    cases hs : step images svc s a with
    | none => simp [hs] at h
    | some m =>
      simp only [hs] at h
      have h1 := ih m t h
      have h2 : m.launched + m.sends.length + m.collected + m.closed.toNat + m.returned.toNat
          + m.panicked.toNat
            = s.launched + s.sends.length + s.collected + s.closed.toNat + s.returned.toNat
              + s.panicked.toNat + 1 := by
        cases a with
        | launch =>
          simp only [step] at hs
          split at hs
          · simp only [Option.some.injEq] at hs
            subst hs
            simp only
            omega
          · simp at hs
        | task k =>
          simp only [step] at hs
          split at hs
          · rename_i hg
            split at hs
            · simp at hs
            · split at hs
              · simp only [Option.some.injEq] at hs
                subst hs
                simp [hg.1]
              · split at hs
                · simp only [Option.some.injEq] at hs
                  subst hs
                  simp [hg.1]
                · split at hs
                  · simp only [Option.some.injEq] at hs
                    subst hs
                    simp only [List.length_append, List.length_singleton]
                    omega
                  · simp at hs
          · simp at hs
        | recv =>
          simp only [step] at hs
          split at hs
          · split at hs
            · simp at hs
            · simp only [Option.some.injEq] at hs
              subst hs
              simp only
              omega
          · simp at hs
        | close =>
          simp only [step] at hs
          split at hs
          · rename_i hg
            simp only [Option.some.injEq] at hs
            subst hs
            simp only [hg.2.2.2, Bool.toNat_true, Bool.toNat_false]
            omega
          · simp at hs
        | ret =>
          simp only [step] at hs
          split at hs
          · rename_i hg
            simp only [Option.some.injEq] at hs
            subst hs
            simp only [hg.2.2, Bool.toNat_true, Bool.toNat_false]
            omega
          · simp at hs
      simp only [List.length_cons]
      omega

theorem run_launches {F : Type} {images : List String} {svc : Nat → String → SdkReturn F}
    (m : Nat) : ∀ s : State F, s.panicked = false → s.launched + m ≤ images.length →
      run images svc s (List.replicate m Action.launch)
        = some { s with launched := s.launched + m } := by
  induction m with
  | zero => intro s _ _; rfl
  | succ m ih =>
    intro s hlive hle
    have hlt : s.launched < images.length := by omega
    simp only [List.replicate_succ, run, step]
    rw [if_pos ⟨hlive, hlt⟩]
    have h := ih { s with launched := s.launched + 1 } hlive
      (by show s.launched + 1 + m ≤ images.length; omega)
    show run images svc { s with launched := s.launched + 1 } (List.replicate m Action.launch)
      = _
    rw [h]
    simp only [Option.some.injEq, State.mk.injEq, true_and, and_true]
    omega

theorem run_tasks {F : Type} {images : List String} {svc : Nat → String → SdkReturn F}
    (order : List Nat) : ∀ s : State F, Inv images svc s → s.panicked = false →
      (∀ k ∈ order, Pending s k ∧ (taskMessage images svc k).isSome = true) → order.Nodup →
      ∃ t, run images svc s (order.map Action.task) = some t ∧ t.order = s.order ++ order
        ∧ t.panicked = false ∧ t.launched = s.launched ∧ t.collected = s.collected
        ∧ t.closed = s.closed ∧ t.returned = s.returned := by
  induction order with
  | nil =>
    intro s _ hlive _ _
    exact ⟨s, rfl, by simp, hlive, rfl, rfl, rfl, rfl⟩
  | cons k rest ih =>
    intro s hinv hlive hall hnd
    obtain ⟨hp, hsome⟩ := hall k (List.mem_cons_self k rest)
    obtain ⟨r, hr⟩ := Option.isSome_iff_exists.1 hsome
    have hstep := task_send hinv hlive hp hr
    have hinv1 := step_inv hinv _ hstep
    obtain ⟨hk, hnd'⟩ := List.nodup_cons.1 hnd
    have hall' : ∀ j ∈ rest, Pending { s with buf := s.buf ++ [r], sends := s.sends ++ [(k, r)] } j
        ∧ (taskMessage images svc j).isSome = true := by
      intro j hj
      obtain ⟨hpj, hsj⟩ := hall j (List.mem_cons_of_mem k hj)
      refine ⟨⟨hpj.1, ?_⟩, hsj⟩
      have hne : j ≠ k := fun h => hk (h ▸ hj)
      have hjn : j ∉ s.order := hpj.2
      simp only [State.order, List.map_append, List.map_cons, List.map_nil, List.mem_append,
        List.mem_singleton, not_or] at hjn ⊢
      exact ⟨hjn, hne⟩
    obtain ⟨t, hrun, hord, h1, h2, h3, h4, h5⟩ := ih _ hinv1 hlive hall' hnd'
    refine ⟨t, ?_, ?_, h1, h2, h3, h4, h5⟩
    · simp only [List.map_cons, run, hstep]
      exact hrun
    · rw [hord]
      simp [State.order]

theorem run_recvs {F : Type} {images : List String} {svc : Nat → String → SdkReturn F}
    (m : Nat) : ∀ s : State F, Inv images svc s → s.panicked = false →
      s.launched = images.length → s.closed = false → s.collected + m ≤ s.sends.length →
      ∃ t, run images svc s (List.replicate m Action.recv) = some t
        ∧ t.collected = s.collected + m ∧ t.sends = s.sends ∧ t.panicked = false
        ∧ t.launched = s.launched ∧ t.closed = false ∧ t.returned = s.returned := by
  induction m with
  | zero =>
    intro s _ hlive _ hc _
    exact ⟨s, rfl, rfl, rfl, hlive, rfl, hc, rfl⟩
  | succ m ih =>
    intro s hinv hlive hN hc hle
    have h1 := sends_length_le hinv
    have hcol : s.collected < s.results.length := by
      rw [hinv.results_len]
      omega
    have hdl : s.collected < s.delivered.length := by
      simp only [State.delivered, List.length_map]
      omega
    have hbuf : s.buf = s.delivered[s.collected] :: s.delivered.drop (s.collected + 1) := by
      rw [hinv.buf_eq, List.drop_eq_getElem_cons hdl]
    have hstep : step images svc s Action.recv
        = some { s with buf := s.delivered.drop (s.collected + 1),
                        results := s.results.set s.collected s.delivered[s.collected],
                        collected := s.collected + 1 } := by
      simp only [step]
      rw [if_pos ⟨hlive, hN, hcol, hc⟩, hbuf]
    have hinv1 := step_inv hinv _ hstep
    obtain ⟨t, hrun, e1, e2, e3, e4, e5, e6⟩ :=
      ih _ hinv1 hlive hN hc (by simp only; omega)
    refine ⟨t, ?_, ?_, e2, e3, e4, e5, e6⟩
    · simp only [List.replicate_succ, run, hstep]
      exact hrun
    · rw [e1]
      simp only
      omega

theorem schedule_runs {F : Type} (images : List String) (svc : Nat → String → SdkReturn F)
    (order : List Nat) (hperm : order.Perm (List.range images.length))
    (hok : ∀ k, k < images.length → (taskMessage images svc k).isSome = true) :
    ∃ s, run images svc (init images) (schedule images.length order) = some s
      ∧ s.returned = true ∧ s.panicked = false ∧ s.order = order := by
  have hnd : order.Nodup := hperm.nodup_iff.2 (List.nodup_range _)
  have hmem : ∀ k ∈ order, k < images.length := fun k hk =>
    List.mem_range.1 (hperm.subset hk)
  -- the launches
  have hinit := inv_init images svc
  have hl : run images svc (init images) (List.replicate images.length Action.launch)
      = some { (init images : State F) with launched := (init images : State F).launched
          + images.length } :=
    run_launches images.length (init images) rfl (by simp [init])
  have hinv1 := run_inv _ _ _ hinit hl
  -- the tasks, in the given order
  obtain ⟨s2, hrun2, hord2, hp2, hl2, hc2, hcl2, hr2⟩ :=
    run_tasks order _ hinv1 rfl (fun k hk => ⟨⟨by simpa [init] using hmem k hk, by
      simp [State.order, init]⟩, hok k (hmem k hk)⟩) hnd
  have hinv2 := run_inv _ _ _ hinv1 hrun2
  have hlen2 : s2.sends.length = images.length := by
    have : s2.order.length = order.length := by rw [hord2]; simp [State.order, init]
    rw [hperm.length_eq] at this
    simpa [State.order] using this
  -- the receives
  obtain ⟨s3, hrun3, hc3, hs3, hp3, hl3, hcl3, hr3⟩ :=
    run_recvs images.length s2 hinv2 hp2 (by rw [hl2]; simp [init]) (by rw [hcl2]; rfl)
      (by rw [hc2, hlen2]; simp [init])
  have hinv3 := run_inv _ _ _ hinv2 hrun3
  -- close and return
  have hcol3 : s3.collected = s3.results.length := by
    rw [hinv3.results_len, hc3, hc2]
    simp [init]
  have hN3 : s3.launched = images.length := by rw [hl3, hl2]; simp [init]
  have hret3 : s3.returned = false := by rw [hr3, hr2]; rfl
  have hrun4 : run images svc s3 [Action.close, Action.ret]
      = some { s3 with closed := true, returned := true } := by
    simp [run, step, hp3, hN3, hcol3.symm, hcl3, hret3]
  refine ⟨{ s3 with closed := true, returned := true }, ?_, rfl, hp3, ?_⟩
  · unfold schedule
    rw [run_append, run_append, run_append, hl]
    simp only [Option.some_bind]
    rw [hrun2]
    simp only [Option.some_bind]
    rw [hrun3]
    simp only [Option.some_bind]
    exact hrun4
  · show s3.order = order
    have : s3.order = s2.order := by simp [State.order, hs3]
    rw [this, hord2]
    simp [State.order, init]

theorem panic_free_step {F : Type} {images : List String} {svc : Nat → String → SdkReturn F}
    {s t : State F} (hok : ∀ k, k < images.length → (taskMessage images svc k).isSome = true)
    (hinv : Inv images svc s) (hlive : s.panicked = false) (a : Action)
    (h : step images svc s a = some t) : t.panicked = false := by
  cases a with
  | launch =>
    simp only [step] at h
    split at h
    · simp only [Option.some.injEq] at h
      subst h
      exact hlive
    · simp at h
  | task k =>
    by_cases hp : Pending s k
    · have hk : k < images.length := Nat.lt_of_lt_of_le hp.1 hinv.launched_le
      obtain ⟨r, hr⟩ := Option.isSome_iff_exists.1 (hok k hk)
      rw [task_send hinv hlive hp hr] at h
      simp only [Option.some.injEq] at h
      subst h
      exact hlive
    · simp only [step] at h
      rw [if_neg (fun hg => hp ⟨hg.2.1, hg.2.2⟩)] at h
      simp at h
  | recv =>
    simp only [step] at h
    split at h
    · split at h
      · simp at h
      · simp only [Option.some.injEq] at h
        subst h
        exact hlive
    · simp at h
  | close =>
    simp only [step] at h
    split at h
    · simp only [Option.some.injEq] at h
      subst h
      exact hlive
    · simp at h
  | ret =>
    simp only [step] at h
    split at h
    · simp only [Option.some.injEq] at h
      subst h
      exact hlive
    · simp at h

theorem panic_free_run {F : Type} {images : List String} {svc : Nat → String → SdkReturn F}
    (hok : ∀ k, k < images.length → (taskMessage images svc k).isSome = true)
    (sched : List Action) : ∀ (s t : State F), Inv images svc s → s.panicked = false →
      run images svc s sched = some t → t.panicked = false := by
  induction sched with
  | nil =>
    intro s t _ hlive h
    simp only [run, Option.some.injEq] at h
    exact h ▸ hlive
  | cons a rest ih =>
    intro s t hinv hlive h
    simp only [run] at h
    cases hs : step images svc s a with
    | none => simp [hs] at h
    | some m =>
      simp only [hs] at h
      exact ih m t (step_inv hinv a hs) (panic_free_step hok hinv hlive a hs) h

theorem empty_batch_actions {F : Type} {svc : Nat → String → SdkReturn F}
    (sched : List Action) : ∀ (s t : State F), Inv [] svc s →
      run [] svc s sched = some t → ∀ a ∈ sched, a = Action.close ∨ a = Action.ret := by
  induction sched with
  | nil => intro s t _ _ a ha; cases ha
  | cons b rest ih =>
    intro s t hinv h a ha
    simp only [run] at h
    cases hs : step [] svc s b with
    | none => simp [hs] at h
    | some m =>
      simp only [hs] at h
      rcases List.mem_cons.1 ha with rfl | ha
      · have hl : s.launched = 0 := Nat.le_zero.1 hinv.launched_le
        have hr : s.results.length = 0 := hinv.results_len
        cases a with
        | launch => simp [step] at hs
        | task k => simp [step, hl] at hs
        | recv => simp [step, hr] at hs
        | close => exact Or.inl rfl
        | ret => exact Or.inr rfl
      · exact ih m t (step_inv hinv b hs) h a ha

theorem can_finish {F : Type} {images : List String} {svc : Nat → String → SdkReturn F}
    (hok : ∀ k, k < images.length → (taskMessage images svc k).isSome = true) :
    ∀ (n : Nat) (s : State F), Inv images svc s → s.panicked = false →
      3 * images.length + 2
          ≤ s.launched + s.sends.length + s.collected + s.closed.toNat + s.returned.toNat + n →
      ∃ rest t, run images svc s rest = some t ∧ t.returned = true ∧ t.panicked = false := by
  intro n
  induction n with
  | zero =>
    intro s hinv hlive hle
    have h1 := hinv.launched_le
    have h2 := sends_length_le hinv
    have h3 := hinv.collected_le
    have h4 := Bool.toNat_le s.closed
    have hret : s.returned = true := by
      cases hr : s.returned with
      | true => rfl
      | false =>
        rw [hr] at hle
        simp only [Bool.toNat_false] at hle
        omega
    exact ⟨[], s, rfl, hret, hlive⟩
  | succ n ih =>
    intro s hinv hlive hle
    cases hr : s.returned with
    | true => exact ⟨[], s, rfl, hr, hlive⟩
    | false =>
      obtain ⟨a, m, hs⟩ := progress hinv hlive hr
      have hinv1 := step_inv hinv a hs
      have hlive1 := panic_free_step hok hinv hlive a hs
      have hrun1 : run images svc s [a] = some m := by simp [run, hs]
      have hlen := run_length [a] s m hrun1
      simp only [hlive, hlive1, Bool.toNat_false, List.length_singleton] at hlen
      obtain ⟨rest, t, hrun, hret, hp⟩ := ih m hinv1 hlive1 (by omega)
      refine ⟨a :: rest, t, ?_, hret, hp⟩
      simp only [run, hs]
      exact hrun

theorem reachable_can_finish {F : Type} {images : List String}
    {svc : Nat → String → SdkReturn F}
    (hok : ∀ k, k < images.length → (taskMessage images svc k).isSome = true)
    {sched : List Action} {s : State F} (hrun : run images svc (init images) sched = some s) :
    s.panicked = false
      ∧ ∃ rest t, run images svc (init images) (sched ++ rest) = some t ∧ t.returned = true := by
  have hinv := reachable_inv hrun
  have hlive := panic_free_run hok sched _ _ (inv_init images svc) rfl hrun
  obtain ⟨rest, t, hrest, hret, _⟩ :=
    can_finish hok (3 * images.length + 2) s hinv hlive (by omega)
  refine ⟨hlive, rest, t, ?_, hret⟩
  rw [run_append, hrun]
  exact hrest

theorem faulting_task_never_returns {F : Type} {images : List String}
    {svc : Nat → String → SdkReturn F} {k : Nat} (hk : k < images.length)
    (hfault : taskMessage images svc k = none) (sched : List Action) :
    processImages images svc sched = none := by
  unfold processImages
  cases hrun : run images svc (init images) sched with
  | none => rfl
  | some s =>
    simp only
    split
    · rename_i hret
      exfalso
      have hinv := reachable_inv hrun
      obtain ⟨_, _, hperm, _, _⟩ := closed_facts hinv (hinv.returned_imp hret)
      have hmem : k ∈ s.order := hperm.symm.subset (List.mem_range.2 hk)
      simp only [State.order, List.mem_map] at hmem
      obtain ⟨p, hp, hpk⟩ := hmem
      have := hinv.sends_ok p hp
      rw [hpk, hfault] at this
      cases this
    · rfl

/-! ## The claims -/

/-- C1, counterexample: on the batch "a.jpg", "b.jpg", when the response for
"b.jpg" holds a label with an instance list and no name, the task of "a.jpg"
builds its result and the task of "b.jpg" faults: under no schedule does
`processImages` return, so no result is returned at all. -/
theorem faulting_task_drops_results :
    (∀ sched : List Action, processImages ["a.jpg", "b.jpg"] namelessService sched = none)
      ∧ taskMessage ["a.jpg", "b.jpg"] namelessService 0
        = some { Key := "a.jpg",
                 Values := [{ Title := "Dog",
                              Locations := [{ Left := 0.1, Top := 0.2, Height := 0.4,
                                              Width := 0.3 }] }] }
      ∧ taskMessage ["a.jpg", "b.jpg"] namelessService 1 = none :=
  have hfault : taskMessage ["a.jpg", "b.jpg"] namelessService 1 = none := rfl
  ⟨fun sched => faulting_task_never_returns (show 1 < ["a.jpg", "b.jpg"].length by decide)
    hfault sched, rfl, hfault⟩

/-- C1, amended: for every batch of N identifiers (duplicates allowed) each of
whose tasks builds its message (no nil dereference in `getImageResults`) and
every completion order of the tasks, `processImages` returns exactly N results
and no result is dropped or duplicated: the result keys are a permutation of
the identifiers, and each result is the message that `getImageResults` built
for that occurrence.  Under the condition every completion order is realised
by an execution that returns these results, no execution panics and every
execution continues to the return; and every execution that returns, condition
or not, has these results. -/
theorem processImages_returns_every_result {F : Type} (images : List String)
    (svc : Nat → String → SdkReturn F) :
    ((∀ k, k < images.length → (taskMessage images svc k).isSome = true) →
        (∀ order : List Nat, order.Perm (List.range images.length) →
          ∃ results, processImages images svc (schedule images.length order) = some results
            ∧ results.map some = order.map (taskMessage images svc)
            ∧ results.length = images.length
            ∧ (results.map (fun r => r.Key)).Perm images)
        ∧ (∀ (sched : List Action) (s : State F),
            run images svc (init images) sched = some s →
              s.panicked = false
                ∧ ∃ rest results, processImages images svc (sched ++ rest) = some results))
      ∧ (∀ (sched : List Action) (results : List (Rekognitionresponse F)),
          processImages images svc sched = some results →
            results.length = images.length
              ∧ (results.map (fun r => r.Key)).Perm images
              ∧ ∃ s, run images svc (init images) sched = some s ∧ results = s.results
                  ∧ s.order.Perm (List.range images.length)
                  ∧ results.map some = s.order.map (taskMessage images svc)) := by
  have hfinal : ∀ (sched : List Action) (s : State F),
      run images svc (init images) sched = some s → s.returned = true →
        s.results.length = images.length
          ∧ (s.results.map (fun r => r.Key)).Perm images
          ∧ s.order.Perm (List.range images.length)
          ∧ s.results.map some = s.order.map (taskMessage images svc) := by
    intro sched s hrun hret
    have hinv := reachable_inv hrun
    obtain ⟨_, _, hperm, hres, _⟩ := closed_facts hinv (hinv.returned_imp hret)
    refine ⟨hinv.results_len, ?_, hperm, ?_⟩
    · rw [hres, delivered_keys hinv]
      have := hperm.map (fun k => images.getD k "")
      rwa [map_getD_range] at this
    · rw [hres, delivered_eq_messages hinv]
  refine ⟨fun hok => ⟨?_, ?_⟩, ?_⟩
  · intro order hperm
    obtain ⟨s, hrun, hret, _, hord⟩ := schedule_runs images svc order hperm hok
    obtain ⟨hlen, hkeys, _, hmsgs⟩ := hfinal _ s hrun hret
    refine ⟨s.results, by simp [processImages, hrun, hret], ?_, hlen, hkeys⟩
    rw [hmsgs, hord]
  · intro sched s hrun
    obtain ⟨hlive, rest, t, hrest, hret⟩ := reachable_can_finish hok hrun
    exact ⟨hlive, rest, t.results, by simp [processImages, hrest, hret]⟩
  · intro sched results h
    unfold processImages at h
    cases hrun : run images svc (init images) sched with
    | none => simp [hrun] at h
    | some s =>
      simp only [hrun] at h
      split at h
      · rename_i hret
        simp only [Option.some.injEq] at h
        subst h
        obtain ⟨hlen, hkeys, hperm, hmsgs⟩ := hfinal sched s hrun hret
        exact ⟨hlen, hkeys, s, rfl, rfl, hperm, hmsgs⟩
      · simp at h

/-- Witness of the amended C1 on the scenario batch, completed in reverse
order. -/
theorem processImages_returns_every_result_witness :
    (∀ k, k < ["a.jpg", "b.jpg"].length →
        (taskMessage ["a.jpg", "b.jpg"] scenarioService k).isSome = true)
      ∧ [1, 0].Perm (List.range ["a.jpg", "b.jpg"].length)
      ∧ ∃ results, processImages ["a.jpg", "b.jpg"] scenarioService
            (schedule ["a.jpg", "b.jpg"].length [1, 0]) = some results
          ∧ results.map some = [1, 0].map (taskMessage ["a.jpg", "b.jpg"] scenarioService)
          ∧ results.length = ["a.jpg", "b.jpg"].length
          ∧ (results.map (fun r => r.Key)).Perm ["a.jpg", "b.jpg"] :=
  ⟨by decide, by decide,
    ((processImages_returns_every_result ["a.jpg", "b.jpg"] scenarioService).1
      (by decide)).1 [1, 0] (by decide)⟩

theorem taskMessage_getElem {F : Type} {images : List String} {svc : Nat → String → SdkReturn F}
    {k : Nat} {r : Rekognitionresponse F} (h : taskMessage images svc k = some r) :
    images[k]? = some r.Key := by
  unfold taskMessage at h
  split at h
  · simp at h
  · rename_i img himg
    rw [getImageResults_key img _ r h, himg]

/-- C2, counterexample: on the batch "a.jpg", "b.jpg", when the task of "b.jpg"
completes first, `processImages` returns the result of "b.jpg" at position 0,
so the keys of the output are not the identifiers position by position. -/
theorem positions_broken_by_completion_order :
    processImages ["a.jpg", "b.jpg"] scenarioService (schedule 2 [1, 0])
        = some [{ Key := "b.jpg", Values := [] },
                { Key := "a.jpg",
                  Values := [{ Title := "Dog",
                               Locations := [{ Left := 0.1, Top := 0.2, Height := 0.4,
                                               Width := 0.3 }] }] }]
      ∧ ["b.jpg", "a.jpg"] ≠ ["a.jpg", "b.jpg"] := by
  constructor
  · rfl
  · decide

/-- C2, amended: for every batch and every completion order, the output of
`processImages` corresponds to its input through the completion order: for all
i < len(identifiers), results[i].Key is identifiers[k] for the task k that was
the i-th to complete; the correspondence is positional when the tasks complete
in the order of the input. -/
theorem results_follow_completion_order {F : Type} (images : List String)
    (svc : Nat → String → SdkReturn F) (sched : List Action)
    (results : List (Rekognitionresponse F))
    (h : processImages images svc sched = some results) :
    ∃ s, run images svc (init images) sched = some s
      ∧ (∀ i, i < images.length →
          ∃ k r, s.order[i]? = some k ∧ results[i]? = some r ∧ images[k]? = some r.Key)
      ∧ (s.order = List.range images.length →
          ∀ i, i < images.length → ∃ r, results[i]? = some r ∧ images[i]? = some r.Key) := by
  unfold processImages at h
  cases hrun : run images svc (init images) sched with
  | none => simp [hrun] at h
  | some s =>
    simp only [hrun] at h
    split at h
    · rename_i hret
      simp only [Option.some.injEq] at h
      subst h
      have hinv := reachable_inv hrun
      obtain ⟨hlen, _, _, hres, _⟩ := closed_facts hinv (hinv.returned_imp hret)
      have hpoint : ∀ i, i < images.length →
          ∃ k r, s.order[i]? = some k ∧ s.results[i]? = some r ∧ images[k]? = some r.Key := by
        intro i hi
        have hi' : i < s.sends.length := hlen ▸ hi
        refine ⟨s.sends[i].1, s.sends[i].2, ?_, ?_, ?_⟩
        · simp [State.order, List.getElem?_eq_getElem hi']
        · rw [hres]
          simp [State.delivered, List.getElem?_eq_getElem hi']
        · exact taskMessage_getElem (hinv.sends_ok _ (List.getElem_mem hi'))
      refine ⟨s, rfl, hpoint, ?_⟩
      intro hord i hi
      obtain ⟨k, r, hk, hr, hkey⟩ := hpoint i hi
      rw [hord, List.getElem?_range hi] at hk
      simp only [Option.some.injEq] at hk
      subst hk
      exact ⟨r, hr, hkey⟩
    · simp at h

/-- Witness of the amended C2 on the scenario batch, completed in reverse
order. -/
theorem results_follow_completion_order_witness :
    processImages ["a.jpg", "b.jpg"] scenarioService (schedule 2 [1, 0])
        = some [{ Key := "b.jpg", Values := [] },
                { Key := "a.jpg",
                  Values := [{ Title := "Dog",
                               Locations := [{ Left := 0.1, Top := 0.2, Height := 0.4,
                                               Width := 0.3 }] }] }]
      ∧ ∃ s, run ["a.jpg", "b.jpg"] scenarioService (init ["a.jpg", "b.jpg"])
            (schedule 2 [1, 0]) = some s
          ∧ (∀ i, i < ["a.jpg", "b.jpg"].length →
              ∃ k r, s.order[i]? = some k
                ∧ ([{ Key := "b.jpg", Values := [] },
                    { Key := "a.jpg",
                      Values := [{ Title := "Dog",
                                   Locations := [{ Left := 0.1, Top := 0.2, Height := 0.4,
                                                   Width := 0.3 }] }] }] :
                    List (Rekognitionresponse ℚ))[i]? = some r
                ∧ ["a.jpg", "b.jpg"][k]? = some r.Key)
          ∧ (s.order = List.range ["a.jpg", "b.jpg"].length →
              ∀ i, i < ["a.jpg", "b.jpg"].length →
                ∃ r, ([{ Key := "b.jpg", Values := [] },
                    { Key := "a.jpg",
                      Values := [{ Title := "Dog",
                                   Locations := [{ Left := 0.1, Top := 0.2, Height := 0.4,
                                                   Width := 0.3 }] }] }] :
                    List (Rekognitionresponse ℚ))[i]? = some r
                  ∧ ["a.jpg", "b.jpg"][i]? = some r.Key) :=
  ⟨rfl, results_follow_completion_order ["a.jpg", "b.jpg"] scenarioService (schedule 2 [1, 0])
    _ rfl⟩

/-- C3: for the empty batch, `processImages` returns an empty result sequence
(its one execution closes the channel and returns), and in every execution no
task is launched, no task runs (so `getLabels` is never called) and no receive
is made on the channel: the only actions taken are `close` and `ret`. -/
theorem empty_batch_returns_empty {F : Type} (svc : Nat → String → SdkReturn F) :
    processImages [] svc [Action.close, Action.ret] = some []
      ∧ ∀ (sched : List Action) (s : State F), run [] svc (init []) sched = some s →
          (∀ a ∈ sched, a = Action.close ∨ a = Action.ret)
            ∧ s.launched = 0 ∧ s.sends = [] ∧ s.collected = 0 ∧ s.results = []
            ∧ s.panicked = false := by
  refine ⟨rfl, ?_⟩
  intro sched s hrun
  have hinv := reachable_inv hrun
  have hl : s.launched = 0 := Nat.le_zero.1 hinv.launched_le
  have hs : s.sends.length = 0 := by
    have := sends_length_le hinv
    omega
  have hc : s.collected = 0 := by
    have := hinv.collected_le
    omega
  refine ⟨empty_batch_actions sched _ _ (inv_init [] svc) hrun, hl,
    List.length_eq_zero.1 hs, hc, List.length_eq_zero.1 hinv.results_len, ?_⟩
  have hok : ∀ k, k < ([] : List String).length → (taskMessage [] svc k).isSome = true :=
    fun k hk => absurd hk (Nat.not_lt_zero k)
  exact panic_free_run hok sched _ _ (inv_init [] svc) rfl hrun

/-- Witness of C3: the execution of the empty batch that returns. -/
theorem empty_batch_returns_empty_witness :
    run [] scenarioService (init []) [Action.close, Action.ret]
        = some { cap := 0, buf := [], closed := true, launched := 0, sends := [], results := [],
                 collected := 0, returned := true, panicked := false }
      ∧ (∀ a ∈ [Action.close, Action.ret], a = Action.close ∨ a = Action.ret) :=
  ⟨rfl, ((empty_batch_returns_empty scenarioService).2 [Action.close, Action.ret] _ rfl).1⟩

/-- C4, counterexample: a failed call whose output holds the label "Dog" gives
a result with that label in its Values, not an empty sequence; and a failed
call whose output is absent gives no result at all, `getImageResults` faults
before the send. -/
theorem failure_output_decides_values :
    getImageResults "a.jpg"
        ((some dogOutput, some (SdkError.classified "ThrottlingException" "Rate exceeded")) :
          SdkReturn ℚ)
        = some { Key := "a.jpg",
                 Values := [{ Title := "Dog",
                              Locations := [{ Left := 0.1, Top := 0.2, Height := 0.4,
                                              Width := 0.3 }] }] }
      ∧ getImageResults "a.jpg"
          ((none, some (SdkError.classified "AccessDeniedException" "denied")) : SdkReturn ℚ)
        = none :=
  ⟨rfl, rfl⟩

/-- C4, amended: for every identifier s and every failure of the remote call,
classified or not, `getLabels` returns the output it received with a nil error,
and `getImageResults` delivers exactly what it delivers for a successful call
that returns the same output, so the error itself is never propagated to
`processImages`; when the output that comes with the failure is present and
holds no label, the result delivered is the one with Key s and no Values,
exactly the result of a successful call that returns zero labels, and
`processImages` returns it like any other result. -/
theorem failure_yields_empty_result {F : Type} (s : String) (e : SdkError) :
    (∀ res : Option (DetectLabelsOutput F),
        getLabels (res, some e) = (res, none)
          ∧ getImageResults s (res, some e) = getImageResults s (res, none))
      ∧ getImageResults s ((some { Labels := [] }, some e) : SdkReturn F)
          = some { Key := s, Values := [] }
      ∧ getImageResults s ((some { Labels := [] }, some e) : SdkReturn F)
          = getImageResults s (SdkReturn.success { Labels := [] })
      ∧ processImages [s] (fun _ _ => ((some { Labels := [] }, some e) : SdkReturn F))
          (schedule 1 [0])
          = some [{ Key := s, Values := [] }] :=
  ⟨fun _ => ⟨rfl, rfl⟩, rfl, rfl, rfl⟩

/-- C5, counterexample: the label "Sea" of `mixedOutput` has an instance list
that is present and empty, hence no localized instance, and `getImageResults`
emits a Values entry for it, with no Locations. -/
theorem empty_instance_list_emits_entry :
    numInstances ({ Name := some "Sea", Instances := some [] } : Label ℚ) = 0
      ∧ getImageResults "a.jpg" (SdkReturn.success mixedOutput)
        = some { Key := "a.jpg",
                 Values := [{ Title := "Sea", Locations := [] },
                            { Title := "Dog",
                              Locations := [{ Left := 0.1, Top := 0.2, Height := 0.4,
                                              Width := 0.3 }] }] } :=
  ⟨rfl, rfl⟩

/-- C5, amended: for every successful service response from which
`getImageResults` builds a result (it builds one whenever the label records are
complete), there is no Values entry for a label whose instance list is absent
(nil) and exactly one Values entry for each label whose instance list is
present, also when it is empty; the number of Locations of the entry equals the
label's number of instances. -/
theorem one_entry_per_instance_list {F : Type} (s : String) (out : DetectLabelsOutput F) :
    (completeOutput (some out) = true →
        ∃ r, getImageResults s (SdkReturn.success out) = some r)
      ∧ ∀ r : Rekognitionresponse F, getImageResults s (SdkReturn.success out) = some r →
          r.Values.length = (withInstanceList out.Labels).length
            ∧ List.Forall₂ (fun l v => v.Locations.length = numInstances l)
                (withInstanceList out.Labels) r.Values := by
  constructor
  · intro hc
    apply Option.isSome_iff_exists.1
    rw [getImageResults_isSome]
    exact hc
  · intro r h
    have hall := (getImageResults_spec s out none r h).2
    refine ⟨hall.length_eq.symm, ?_⟩
    refine hall.imp ?_
    intro l v hlv
    obtain ⟨_, instances, hinst, hboxes⟩ := hlv
    simp only [numInstances, hinst]
    exact hboxes.length_eq.symm

/-- Witness of the amended C5 on `mixedOutput`. -/
theorem one_entry_per_instance_list_witness :
    (completeOutput (some mixedOutput) = true
        ∧ ∃ r, getImageResults "a.jpg" (SdkReturn.success mixedOutput) = some r)
      ∧ getImageResults "a.jpg" (SdkReturn.success mixedOutput)
        = some { Key := "a.jpg",
                 Values := [{ Title := "Sea", Locations := [] },
                            { Title := "Dog",
                              Locations := [{ Left := 0.1, Top := 0.2, Height := 0.4,
                                              Width := 0.3 }] }] }
      ∧ ([{ Title := "Sea", Locations := [] },
          { Title := "Dog",
            Locations := [{ Left := 0.1, Top := 0.2, Height := 0.4, Width := 0.3 }] }] :
          List (ImageResponse ℚ)).length = (withInstanceList mixedOutput.Labels).length
      ∧ List.Forall₂ (fun l v => v.Locations.length = numInstances l)
          (withInstanceList mixedOutput.Labels)
          ([{ Title := "Sea", Locations := [] },
            { Title := "Dog",
              Locations := [{ Left := 0.1, Top := 0.2, Height := 0.4, Width := 0.3 }] }] :
            List (ImageResponse ℚ)) :=
  ⟨⟨rfl, (one_entry_per_instance_list "a.jpg" mixedOutput).1 rfl⟩, rfl,
    (one_entry_per_instance_list "a.jpg" mixedOutput).2 _ rfl⟩

/-- C6, counterexample: for the response with the labels "Sea" (instance list
present and empty) and "Dog" (one instance), the only instance-bearing label is
"Dog", yet the Values of the result have two entries, the first for "Sea". -/
theorem values_include_empty_instance_list :
    instanceBearing
        ([some { Name := some "Sea", Instances := some [] },
          some { Name := some "Dog", Instances := some [some { BoundingBox := some dogBox }] }] :
          List (Option (Label ℚ)))
        = [{ Name := some "Dog", Instances := some [some { BoundingBox := some dogBox }] }]
      ∧ getImageResults "b.jpg"
          (SdkReturn.success
            { Labels := [some { Name := some "Sea", Instances := some [] },
                         some { Name := some "Dog",
                                Instances := some [some { BoundingBox := some dogBox }] }] })
        = some { Key := "b.jpg",
                 Values := [{ Title := "Sea", Locations := [] },
                            { Title := "Dog",
                              Locations := [{ Left := 0.1, Top := 0.2, Height := 0.4,
                                              Width := 0.3 }] }] } :=
  ⟨rfl, rfl⟩

/-- C6, amended: for every identifier s and successful service response from
which `getImageResults` builds a result (it builds one whenever the label
records are complete), the result has Key = s and Values equal to the labels
whose instance list is present (be it empty), in the order the service returned
them, each with Title equal to the label name and Locations equal to its
instances in order, each box copied field for field (Left to Left, Top to Top,
Width to Width, Height to Height). -/
theorem values_copy_labels_in_order {F : Type} (s : String) (out : DetectLabelsOutput F) :
    (completeOutput (some out) = true →
        ∃ r, getImageResults s (SdkReturn.success out) = some r)
      ∧ ∀ r : Rekognitionresponse F, getImageResults s (SdkReturn.success out) = some r →
          r.Key = s ∧ List.Forall₂ EntryOf (withInstanceList out.Labels) r.Values := by
  constructor
  · intro hc
    apply Option.isSome_iff_exists.1
    rw [getImageResults_isSome]
    exact hc
  · intro r h
    exact getImageResults_spec s out none r h

/-- Witness of the amended C6: the scenario's label "Dog" with box Left 0.1,
Top 0.2, Width 0.3, Height 0.4 yields one entry, titled "Dog", with the one
location Left 0.1, Top 0.2, Height 0.4, Width 0.3. -/
theorem values_copy_labels_in_order_witness :
    (completeOutput (some dogOutput) = true
        ∧ ∃ r, getImageResults "a.jpg" (SdkReturn.success dogOutput) = some r)
      ∧ getImageResults "a.jpg" (SdkReturn.success dogOutput)
        = some { Key := "a.jpg",
                 Values := [{ Title := "Dog",
                              Locations := [{ Left := 0.1, Top := 0.2, Height := 0.4,
                                              Width := 0.3 }] }] }
      ∧ ({ Key := "a.jpg",
           Values := [{ Title := "Dog",
                        Locations := [{ Left := 0.1, Top := 0.2, Height := 0.4,
                                        Width := 0.3 }] }] } : Rekognitionresponse ℚ).Key = "a.jpg"
      ∧ List.Forall₂ EntryOf (withInstanceList dogOutput.Labels)
          [{ Title := "Dog",
             Locations := [{ Left := 0.1, Top := 0.2, Height := 0.4, Width := 0.3 }] }] :=
  ⟨⟨rfl, (values_copy_labels_in_order "a.jpg" dogOutput).1 rfl⟩, rfl,
    (values_copy_labels_in_order "a.jpg" dogOutput).2 _ rfl⟩

/-- C7, counterexample: `getImageResults` faults, and sends nothing, when a
label with an instance list has no name, and when the output is absent after a
failure; in `processImages` the task then panics with no message on the
channel. -/
theorem nil_fields_fault :
    getImageResults "a.jpg"
        (SdkReturn.success { Labels := [some { Name := none, Instances := some [] }] } :
          SdkReturn ℚ) = none
      ∧ getImageResults "a.jpg"
          ((none, some (SdkError.unclassified "connection reset")) : SdkReturn ℚ) = none
      ∧ run ["a.jpg"]
          (fun _ _ => (SdkReturn.success
            { Labels := [some { Name := none, Instances := some [] }] } : SdkReturn ℚ))
          (init ["a.jpg"]) [Action.launch, Action.task 0]
        = some { cap := 1, buf := [], closed := false, launched := 1, sends := [],
                 results := [Rekognitionresponse.zero], collected := 0, returned := false,
                 panicked := true } :=
  ⟨rfl, rfl, rfl⟩

/-- C7, amended: for every identifier and every outcome of the label service
call whose output is present and whose label records are complete (each record
is present and, when it has an instance list, it has a name and each instance
is present with its bounding box and the four coordinates), in every execution
of `processImages` the task of that identifier completes without a runtime
fault and sends exactly one message on the delivery channel: its step is
enabled, appends one message, and cannot be taken again. -/
theorem complete_output_sends_once {F : Type} (images : List String)
    (svc : Nat → String → SdkReturn F) (sched : List Action) (st : State F) (k : Nat)
    (img : String) (hrun : run images svc (init images) sched = some st)
    (hlive : st.panicked = false) (hp : Pending st k) (himg : images[k]? = some img)
    (hc : completeOutput (svc k img).1 = true) :
    ∃ r t, getImageResults img (svc k img) = some r ∧ r.Key = img
      ∧ step images svc st (Action.task k) = some t ∧ t.panicked = false
      ∧ t.sends = st.sends ++ [(k, r)] ∧ t.buf = st.buf ++ [r]
      ∧ step images svc t (Action.task k) = none := by
  have hinv := reachable_inv hrun
  have hsome : (getImageResults img (svc k img)).isSome = true := by
    rw [getImageResults_isSome, hc]
  obtain ⟨r, hr⟩ := Option.isSome_iff_exists.1 hsome
  have hmsg : taskMessage images svc k = some r := by
    simp only [taskMessage, himg, hr]
  have hstep := task_send hinv hlive hp hmsg
  refine ⟨r, _, hr, getImageResults_key img _ r hr, hstep, hlive, rfl, rfl, ?_⟩
  have hmem : k ∈ State.order { st with buf := st.buf ++ [r], sends := st.sends ++ [(k, r)] } := by
    simp [State.order]
  simp only [step]
  rw [if_neg (fun hg => hg.2.2 hmem)]

/-- Witness of the amended C7: the task of "a.jpg" in the scenario, once
launched. -/
theorem complete_output_sends_once_witness :
    run ["a.jpg", "b.jpg"] scenarioService (init ["a.jpg", "b.jpg"]) [Action.launch]
        = some { cap := 2, buf := [], closed := false, launched := 1, sends := [],
                 results := [Rekognitionresponse.zero, Rekognitionresponse.zero],
                 collected := 0, returned := false, panicked := false }
      ∧ completeOutput (scenarioService 0 "a.jpg").1 = true
      ∧ ∃ r t, getImageResults "a.jpg" (scenarioService 0 "a.jpg") = some r ∧ r.Key = "a.jpg"
          ∧ step ["a.jpg", "b.jpg"] scenarioService
              { cap := 2, buf := [], closed := false, launched := 1, sends := [],
                results := [Rekognitionresponse.zero, Rekognitionresponse.zero],
                collected := 0, returned := false, panicked := false } (Action.task 0) = some t
          ∧ t.panicked = false ∧ t.sends = [] ++ [(0, r)] ∧ t.buf = [] ++ [r]
          ∧ step ["a.jpg", "b.jpg"] scenarioService t (Action.task 0) = none :=
  ⟨rfl, rfl, complete_output_sends_once ["a.jpg", "b.jpg"] scenarioService [Action.launch] _ 0
    "a.jpg" rfl rfl ⟨by decide, by decide⟩ rfl rfl⟩

/-- C8: for every request whose HTTP method is neither "POST" nor "OPTIONS",
`HandleRequest` returns status code 400 with the body "invalid request" and a
nil error, without calling `processImages`; for the method "OPTIONS" it returns
status code 200, also without calling `processImages`. -/
theorem HandleRequest_rejects_other_methods {F : Type} (unmarshal : String → List String)
    (engine : List String → List (Rekognitionresponse F))
    (marshal : List (Rekognitionresponse F) → Option String)
    (request : APIGatewayProxyRequest) :
    (request.HTTPMethod ≠ "POST" → request.HTTPMethod ≠ "OPTIONS" →
        (HandleRequest unmarshal engine marshal request).response.StatusCode = 400
          ∧ (HandleRequest unmarshal engine marshal request).response.Body = "invalid request"
          ∧ (HandleRequest unmarshal engine marshal request).err = none
          ∧ (HandleRequest unmarshal engine marshal request).engineCalls = [])
      ∧ (request.HTTPMethod = "OPTIONS" →
          (HandleRequest unmarshal engine marshal request).response.StatusCode = 200
            ∧ (HandleRequest unmarshal engine marshal request).err = none
            ∧ (HandleRequest unmarshal engine marshal request).engineCalls = []) := by
  constructor
  · intro hpost hopt
    simp only [HandleRequest, if_neg hopt, if_neg hpost, and_self]
  · intro hopt
    simp only [HandleRequest, if_pos hopt, and_self]

/-- Witness of C8: a "GET" request and an "OPTIONS" request. -/
theorem HandleRequest_rejects_other_methods_witness :
    ("GET" ≠ "POST" ∧ "GET" ≠ "OPTIONS"
        ∧ (HandleRequest (fun _ => ["a.jpg"]) (fun _ => ([] : List (Rekognitionresponse ℚ)))
            (fun _ => some "[]") { HTTPMethod := "GET", Body := "" }).response.StatusCode = 400)
      ∧ (HandleRequest (fun _ => ["a.jpg"]) (fun _ => ([] : List (Rekognitionresponse ℚ)))
            (fun _ => some "[]") { HTTPMethod := "OPTIONS", Body := "" }).engineCalls = [] :=
  ⟨⟨by decide, by decide,
      ((HandleRequest_rejects_other_methods (fun _ => ["a.jpg"])
        (fun _ => ([] : List (Rekognitionresponse ℚ))) (fun _ => some "[]")
        { HTTPMethod := "GET", Body := "" }).1 (by decide) (by decide)).1⟩,
    ((HandleRequest_rejects_other_methods (fun _ => ["a.jpg"])
        (fun _ => ([] : List (Rekognitionresponse ℚ))) (fun _ => some "[]")
        { HTTPMethod := "OPTIONS", Body := "" }).2 rfl).2.2⟩

/-- C9, counterexample: on the batch "a.jpg", "b.jpg", when the response for
"b.jpg" holds a label with an instance list and no name, the execution in which
both tasks are launched and run ends with one message sent, none received, the
second task panicked, and no step that can be taken: the second task never
sends and the collector's receives never complete. -/
theorem faulting_task_stops_collection :
    run ["a.jpg", "b.jpg"] namelessService (init ["a.jpg", "b.jpg"])
        [Action.launch, Action.launch, Action.task 0, Action.task 1]
        = some { cap := 2, buf := [{ Key := "a.jpg",
                                     Values := [{ Title := "Dog",
                                                  Locations := [{ Left := 0.1, Top := 0.2,
                                                                  Height := 0.4,
                                                                  Width := 0.3 }] }] }],
                 closed := false, launched := 2,
                 sends := [(0, { Key := "a.jpg",
                                 Values := [{ Title := "Dog",
                                              Locations := [{ Left := 0.1, Top := 0.2,
                                                              Height := 0.4,
                                                              Width := 0.3 }] }] })],
                 results := [Rekognitionresponse.zero, Rekognitionresponse.zero],
                 collected := 0, returned := false, panicked := true }
      ∧ ∀ a : Action, step ["a.jpg", "b.jpg"] namelessService
          { cap := 2, buf := [{ Key := "a.jpg",
                                Values := [{ Title := "Dog",
                                             Locations := [{ Left := 0.1, Top := 0.2,
                                                             Height := 0.4,
                                                             Width := 0.3 }] }] }],
            closed := false, launched := 2,
            sends := [(0, { Key := "a.jpg",
                            Values := [{ Title := "Dog",
                                         Locations := [{ Left := 0.1, Top := 0.2,
                                                         Height := 0.4,
                                                         Width := 0.3 }] }] })],
            results := [Rekognitionresponse.zero, Rekognitionresponse.zero],
            collected := 0, returned := false, panicked := true } a = none := by
  refine ⟨rfl, ?_⟩
  intro a
  cases a <;> simp [step]

/-- C9, amended: for every batch of N identifiers, in every state of every
execution of `processImages`: the channel has capacity N; the tasks that have
sent are distinct launched tasks, so each sends at most once; a task still to
send finds the channel open and not full, so no send blocks; the function has
returned only with all N messages collected, sent by the N tasks once each;
and the channel is closed only when all N sends are done.  When every task
builds its message (no nil dereference in `getImageResults`), moreover, no
goroutine panics, some step can be taken until the function has returned (no
deadlock), and the execution continues to the return, where exactly the N
tasks have each sent once and the collector's N receives have all completed. -/
theorem delivery_channel_protocol {F : Type} (images : List String)
    (svc : Nat → String → SdkReturn F) (sched : List Action) (s : State F)
    (hrun : run images svc (init images) sched = some s) :
    (s.cap = images.length
      ∧ s.order.Nodup ∧ (∀ k ∈ s.order, k < s.launched) ∧ s.launched ≤ images.length
      ∧ (∀ k, Pending s k → s.closed = false ∧ s.buf.length < s.cap
          ∧ (s.panicked = false → ∃ t, step images svc s (Action.task k) = some t))
      ∧ sched.length ≤ 3 * images.length + 3
      ∧ (s.returned = true → s.collected = images.length ∧ s.sends.length = images.length
          ∧ s.order.Perm (List.range images.length))
      ∧ (s.closed = true → s.sends.length = images.length ∧ ∀ k, ¬ Pending s k))
      ∧ ((∀ k, k < images.length → (taskMessage images svc k).isSome = true) →
          s.panicked = false
            ∧ (s.returned = false → ∃ a t, step images svc s a = some t)
            ∧ ∃ rest t, run images svc s rest = some t ∧ t.returned = true
                ∧ t.panicked = false ∧ t.collected = images.length
                ∧ t.order.Perm (List.range images.length) ∧ t.results = t.delivered) := by
  have hinv := reachable_inv hrun
  refine ⟨⟨hinv.cap_eq, hinv.order_nodup, hinv.order_lt, hinv.launched_le, ?_, ?_, ?_, ?_⟩, ?_⟩
  · intro k hp
    exact ⟨pending_open hinv hp, pending_room hinv hp, fun hlive => task_enabled hinv hlive hp⟩
  · have hlen := run_length sched _ _ hrun
    have h1 := hinv.launched_le
    have h2 := sends_length_le hinv
    have h3 := hinv.collected_le
    have h4 := Bool.toNat_le s.closed
    have h5 := Bool.toNat_le s.returned
    have h6 := Bool.toNat_le s.panicked
    simp only [init, List.length_nil, Bool.toNat_false] at hlen
    omega
  · intro hret
    obtain ⟨hlen, hcol, hperm, _, _⟩ := closed_facts hinv (hinv.returned_imp hret)
    exact ⟨hcol, hlen, hperm⟩
  · intro hc
    refine ⟨(closed_facts hinv hc).1, ?_⟩
    intro k hp
    have := pending_open hinv hp
    rw [hc] at this
    cases this
  · intro hok
    have hlive := panic_free_run hok sched _ _ (inv_init images svc) rfl hrun
    refine ⟨hlive, progress hinv hlive, ?_⟩
    obtain ⟨rest, t, hrest, hret, hp⟩ :=
      can_finish hok (3 * images.length + 2) s hinv hlive (by omega)
    have hinvt := run_inv rest _ _ hinv hrest
    obtain ⟨_, hcol, hperm, hres, _⟩ := closed_facts hinvt (hinvt.returned_imp hret)
    exact ⟨rest, t, hrest, hret, hp, hcol, hperm, hres⟩

/-- Witness of the amended C9: the scenario batch after both launches and the
send of the second task. -/
theorem delivery_channel_protocol_witness :
    run ["a.jpg", "b.jpg"] scenarioService (init ["a.jpg", "b.jpg"])
        [Action.launch, Action.launch, Action.task 1]
        = some { cap := 2, buf := [{ Key := "b.jpg", Values := [] }], closed := false,
                 launched := 2, sends := [(1, { Key := "b.jpg", Values := [] })],
                 results := [Rekognitionresponse.zero, Rekognitionresponse.zero],
                 collected := 0, returned := false, panicked := false }
      ∧ [Action.launch, Action.launch, Action.task 1].length ≤ 3 * ["a.jpg", "b.jpg"].length + 3
      ∧ (∀ k, k < ["a.jpg", "b.jpg"].length →
          (taskMessage ["a.jpg", "b.jpg"] scenarioService k).isSome = true)
      ∧ ∃ rest t, run ["a.jpg", "b.jpg"] scenarioService
            { cap := 2, buf := [{ Key := "b.jpg", Values := [] }], closed := false,
              launched := 2, sends := [(1, { Key := "b.jpg", Values := [] })],
              results := [Rekognitionresponse.zero, Rekognitionresponse.zero],
              collected := 0, returned := false, panicked := false } rest = some t
          ∧ t.returned = true ∧ t.panicked = false ∧ t.collected = ["a.jpg", "b.jpg"].length
          ∧ t.order.Perm (List.range ["a.jpg", "b.jpg"].length) ∧ t.results = t.delivered :=
  ⟨rfl, (delivery_channel_protocol ["a.jpg", "b.jpg"] scenarioService
      [Action.launch, Action.launch, Action.task 1] _ rfl).1.2.2.2.2.2.1,
    by decide,
    ((delivery_channel_protocol ["a.jpg", "b.jpg"] scenarioService
      [Action.launch, Action.launch, Action.task 1] _ rfl).2 (by decide)).2.2⟩

/-- C10: `processImages` stores results in arrival order, not source order: in
every execution the entries of `results` written so far are, position by
position, the first messages delivered on the channel, and the slice returned
is the sequence of all messages in the order of their delivery; so on the batch
"x.png", "y.png", when the second task completes first, the key of results[0]
is "y.png" and not identifiers[0]. -/
theorem results_in_arrival_order :
    (∀ (F : Type) (images : List String) (svc : Nat → String → SdkReturn F)
        (sched : List Action) (s : State F),
        run images svc (init images) sched = some s →
          (∀ i, i < s.collected → s.results[i]? = s.delivered[i]?)
            ∧ (s.returned = true → s.collected = images.length ∧ s.results = s.delivered))
      ∧ ∃ results r, processImages ["x.png", "y.png"] quietService (schedule 2 [1, 0])
            = some results
          ∧ results[0]? = some r ∧ r.Key = "y.png" ∧ r.Key ≠ "x.png" := by
  constructor
  · intro F images svc sched s hrun
    have hinv := reachable_inv hrun
    constructor
    · intro i hi
      have hc : s.collected ≤ s.delivered.length := by
        simpa [State.delivered] using hinv.collected_le
      rw [hinv.results_eq, List.getElem?_append_left (by simp; omega), List.getElem?_take,
        if_pos hi]
    · intro hret
      obtain ⟨_, hcol, _, hres, _⟩ := closed_facts hinv (hinv.returned_imp hret)
      exact ⟨hcol, hres⟩
  · exact ⟨[{ Key := "y.png", Values := [] }, { Key := "x.png", Values := [] }],
      { Key := "y.png", Values := [] }, rfl, rfl, rfl, by decide⟩

/-- Witness of C10: the batch "x.png", "y.png" after both sends, the second task
first, and one receive. -/
theorem results_in_arrival_order_witness :
    run ["x.png", "y.png"] quietService (init ["x.png", "y.png"])
        [Action.launch, Action.launch, Action.task 1, Action.task 0, Action.recv]
        = some { cap := 2, buf := [{ Key := "x.png", Values := [] }], closed := false,
                 launched := 2,
                 sends := [(1, { Key := "y.png", Values := [] }),
                           (0, { Key := "x.png", Values := [] })],
                 results := [{ Key := "y.png", Values := [] }, Rekognitionresponse.zero],
                 collected := 1, returned := false, panicked := false }
      ∧ ([{ Key := "y.png", Values := [] }, Rekognitionresponse.zero] :
          List (Rekognitionresponse ℚ))[0]?
        = ([{ Key := "y.png", Values := [] }, { Key := "x.png", Values := [] }] :
          List (Rekognitionresponse ℚ))[0]? :=
  ⟨rfl, (results_in_arrival_order.1 ℚ ["x.png", "y.png"] quietService
    [Action.launch, Action.launch, Action.task 1, Action.task 0, Action.recv] _ rfl).1 0
      (by decide)⟩

end ImageAnalysis
